import Mathlib

/-
Verification of the zentrox HTTP framework: the trie router, per-request
Context, chain executor, scope composition and the JWT middleware.
The router, Context, executor and scope builder are modelled from the
design document (the corresponding Go sources are not part of this
checkout); the JWT middleware and token signer are translated from
the package sources.
-/

namespace Zentrox

/-- Association-list lookup keyed by strings, first binding wins
(models Go map reads and header/param lookups). -/
def alookup {β : Type} (k : String) : List (String × β) → Option β
  | [] => none
  | (k', v) :: rest => if k = k' then some v else alookup k rest

/-- Association-list update: replace the first binding of `k`, or append
a fresh one at the end. -/
def assocSet {β : Type} (k : String) (v : β) : List (String × β) → List (String × β)
  | [] => [(k, v)]
  | (k', v') :: rest => if k = k' then (k, v) :: rest else (k', v') :: assocSet k v rest

/-- Split a character list on a separator character, keeping empty pieces
(models Go strings.Split). -/
def splitOnChar (sep : Char) : List Char → List (List Char)
  | [] => [[]]
  | ch :: rest =>
    if ch = sep then [] :: splitOnChar sep rest
    else
      match splitOnChar sep rest with
      | [] => [[ch]]
      | s :: ss => (ch :: s) :: ss

/-- Join path segments with slashes (the remainder captured by a wildcard
segment, including separators). -/
def joinSegs : List String → String
  | [] => ""
  | [s] => s
  | s :: rest => s ++ "/" ++ joinSegs rest

/-- Split a path string into its non-empty slash-separated segments. -/
def pathSegs (s : String) : List String :=
  ((splitOnChar '/' s.data).filter (fun l => l ≠ [])).map (fun l => String.mk l)

theorem alookup_assocSet_self {β : Type} (k : String) (v : β) (xs : List (String × β)) :
    alookup k (assocSet k v xs) = some v := by
  induction xs with
  | nil => simp [alookup, assocSet]
  | cons hd tl ih =>
    obtain ⟨k', v'⟩ := hd
    by_cases h : k = k' <;> simp [alookup, assocSet, h, ih]

theorem splitOnChar_ne_nil (sep : Char) (l : List Char) : splitOnChar sep l ≠ [] := by
  induction l with
  | nil => simp [splitOnChar]
  | cons ch rest ih =>
    by_cases h : ch = sep
    · simp [splitOnChar, h]
    · simp only [splitOnChar, h, if_false]
      cases hs : splitOnChar sep rest with
      | nil => simp
      | cons s ss => simp

theorem splitOnChar_no_sep (sep : Char) (a : List Char) (h : sep ∉ a) :
    splitOnChar sep a = [a] := by
  induction a with
  | nil => rfl
  | cons ch rest ih =>
    simp only [List.mem_cons, not_or] at h
    have hch : ch ≠ sep := fun hc => h.1 hc.symm
    have := ih h.2
    simp [splitOnChar, hch, this]

theorem splitOnChar_append_sep (sep : Char) (a t : List Char) (h : sep ∉ a) :
    splitOnChar sep (a ++ sep :: t) = a :: splitOnChar sep t := by
  induction a with
  | nil => simp [splitOnChar]
  | cons ch rest ih =>
    simp only [List.mem_cons, not_or] at h
    have hch : ch ≠ sep := fun hc => h.1 hc.symm
    have hr := ih h.2
    simp only [List.cons_append, splitOnChar, hch, if_false]
    rw [show rest.append (sep :: t) = rest ++ (sep :: t) from rfl, hr]

/-- Per-request execution context. Modelled from the spec: carries the
bound request data, captured path parameters, the request-scoped store,
the abort flag, the position in the active chain, response-writing state,
the accumulated error and an observation log of executed units. -/
structure Ctx (σ : Type) where
  reqMethod : String
  reqPath : String
  params : List (String × String)
  store : List (String × σ)
  aborted : Bool
  pos : Nat
  statusCode : Nat
  wroteHeader : Bool
  body : String
  err : Option String
  log : List String

/-- Bound value of a captured path parameter, empty if absent. -/
def Ctx.param {σ : Type} (c : Ctx σ) (name : String) : String :=
  (alookup name c.params).getD ""

/-- Request-scoped store write; last write wins. -/
def Ctx.set {σ : Type} (c : Ctx σ) (k : String) (v : σ) : Ctx σ :=
  { c with store := (k, v) :: c.store }

/-- Request-scoped store read. -/
def Ctx.get {σ : Type} (c : Ctx σ) (k : String) : Option σ :=
  alookup k c.store

/-- Mark the context aborted; idempotent. -/
def Ctx.abort {σ : Type} (c : Ctx σ) : Ctx σ :=
  { c with aborted := true }

/-- Record the current error value; later writes overwrite. -/
def Ctx.errSet {σ : Type} (c : Ctx σ) (e : String) : Ctx σ :=
  { c with err := some e }

/-- Response write: the first write fixes the status code, subsequent
writes append to the body. -/
def Ctx.send {σ : Type} (c : Ctx σ) (st : Nat) (s : String) : Ctx σ :=
  if c.wroteHeader then { c with body := c.body ++ s }
  else { c with statusCode := st, wroteHeader := true, body := c.body ++ s }

/-- Append an observation to the context's execution log. -/
def Ctx.logMsg {σ : Type} (c : Ctx σ) (m : String) : Ctx σ :=
  { c with log := c.log ++ [m] }

/-- Acquire a pooled context for an inbound request. Modelled from the
spec: all fields are reset to default-zero state (params cleared, store
cleared, abort flag cleared, chain position reset, error cleared),
regardless of what the prior request left behind. -/
def acquire {σ : Type} (method path : String) (_prior : Ctx σ) : Ctx σ :=
  ⟨method, path, [], [], false, 0, 0, false, "", none, []⟩

/-- A fresh default context, used as an initial state in examples. -/
def emptyCtx {σ : Type} : Ctx σ :=
  ⟨"GET", "/", [], [], false, 0, 0, false, "", none, []⟩

/-- One unit of a handler chain. Modelled from the spec: a unit either
returns without advancing the chain itself (`basic`), or explicitly
invokes continuation in the middle of its body (`around` runs `pre`,
then the remainder of the chain, then `post`). -/
inductive MWUnit (σ : Type) where
  | basic (f : Ctx σ → Ctx σ)
  | around (pre post : Ctx σ → Ctx σ)

/-- An ordered middleware chain ending in the terminal handler. -/
abbrev Chain (σ : Type) : Type := List (MWUnit σ)

/-- Chain executor. Modelled from the spec: units run in order with
implicit continuation (after a `basic` unit returns, the executor
advances to the next unit itself); an `around` unit's explicit
continuation runs the remainder synchronously before `post`; once the
context is aborted no further unit is invoked, including units that
would be reached through an explicit continuation already in flight. -/
def runChain {σ : Type} : Chain σ → Ctx σ → Ctx σ
  | [], c => c
  | u :: rest, c =>
    if c.aborted then c
    else
      let c1 := { c with pos := c.pos + 1 }
      match u with
      | .basic f => runChain rest (f c1)
      | .around pre post => post (runChain rest (pre c1))

theorem runChain_of_aborted {σ : Type} (ch : Chain σ) (c : Ctx σ)
    (h : c.aborted = true) : runChain ch c = c := by
  cases ch with
  | nil => rfl
  | cons u rest => simp [runChain, h]

/-- A unit that only appends its name to the execution log. -/
def tag {σ : Type} (name : String) : MWUnit σ :=
  .basic (fun c => c.logMsg name)

/-- A wrap-style unit: logs before invoking continuation and again after
the remainder of the chain has returned. -/
def wrapTag {σ : Type} (name : String) : MWUnit σ :=
  .around (fun c => c.logMsg ("pre:" ++ name)) (fun c => c.logMsg ("post:" ++ name))

/-- A unit that logs its name and then aborts the context. -/
def abortTag {σ : Type} (name : String) : MWUnit σ :=
  .basic (fun c => (c.logMsg name).abort)

theorem runChain_tags {σ : Type} (ls : List String) (c : Ctx σ)
    (h : c.aborted = false) :
    (runChain (ls.map tag) c).log = c.log ++ ls ∧
      (runChain (ls.map tag) c).aborted = false := by
  induction ls generalizing c with
  | nil => simp [runChain, h]
  | cons l rest ih =>
    have step : runChain ((l :: rest).map tag) c
        = runChain (rest.map tag) (({ c with pos := c.pos + 1 } : Ctx σ).logMsg l) := by
      simp [runChain, tag, h]
    rw [step]
    have h' : (({ c with pos := c.pos + 1 } : Ctx σ).logMsg l).aborted = false := by
      simp [Ctx.logMsg, h]
    have := ih (({ c with pos := c.pos + 1 } : Ctx σ).logMsg l) h'
    simpa [Ctx.logMsg] using this

/-- A pattern segment. Modelled from the spec: a segment starting with a
colon is a param segment, one starting with a star is a wildcard segment,
anything else is a static segment matched by exact label. -/
inductive Seg where
  | static (label : String)
  | param (name : String)
  | wildcard (name : String)
deriving DecidableEq

/-- Classify one pattern segment by its leading character. -/
def parseSeg (s : String) : Seg :=
  match s.data with
  | ':' :: rest => .param (String.mk rest)
  | '*' :: rest => .wildcard (String.mk rest)
  | _ => .static s

/-- Split a pattern string into classified segments. -/
def parsePattern (s : String) : List Seg :=
  (pathSegs s).map parseSeg

/-- Registration-time route-table errors. Modelled from the spec:
duplicate identical (method, pattern), conflicting param/wildcard names
at one trie position, and a wildcard segment that is not final. -/
inductive RegErr where
  | duplicateRoute
  | routeConflict
  | malformedPattern
deriving DecidableEq

/-- Node of the compiled route trie. Modelled from the spec: per-method
handler chains, static children keyed by label, at most one param child,
and at most one wildcard child which is always a leaf (it carries only
its capture name and per-method chains). -/
inductive Node (χ : Type) where
  | mk (handlers : List (String × χ))
      (statics : List (String × Node χ))
      (pc : Option (String × Node χ))
      (wc : Option (String × List (String × χ)))

def Node.handlers {χ : Type} : Node χ → List (String × χ)
  | .mk h _ _ _ => h

def Node.statics {χ : Type} : Node χ → List (String × Node χ)
  | .mk _ s _ _ => s

def Node.pc {χ : Type} : Node χ → Option (String × Node χ)
  | .mk _ _ p _ => p

def Node.wc {χ : Type} : Node χ → Option (String × List (String × χ))
  | .mk _ _ _ w => w

def emptyNode {χ : Type} : Node χ := .mk [] [] none none

/-- Route registration. Modelled from the spec: descend/create trie nodes
segment by segment; a second, differently-named param or wildcard at the
same position fails with routeConflict; a wildcard that is not the final
segment fails with malformedPattern; attaching a chain under a method
already present at the terminal node fails with duplicateRoute. -/
def insert {χ : Type} (m : String) (segs : List Seg) (ch : χ) (n : Node χ) :
    Except RegErr (Node χ) :=
  match segs with
  | [] =>
    match alookup m n.handlers with
    | some _ => .error .duplicateRoute
    | none => .ok (.mk (n.handlers ++ [(m, ch)]) n.statics n.pc n.wc)
  | .static l :: rest =>
    let child := (alookup l n.statics).getD emptyNode
    (insert m rest ch child).map fun child' =>
      .mk n.handlers (assocSet l child' n.statics) n.pc n.wc
  | .param x :: rest =>
    match n.pc with
    | none =>
      (insert m rest ch emptyNode).map fun child' =>
        .mk n.handlers n.statics (some (x, child')) n.wc
    | some (y, pchild) =>
      if x = y then
        (insert m rest ch pchild).map fun child' =>
          .mk n.handlers n.statics (some (y, child')) n.wc
      else .error .routeConflict
  | .wildcard x :: rest =>
    match rest with
    | _ :: _ => .error .malformedPattern
    | [] =>
      match n.wc with
      | none => .ok (.mk n.handlers n.statics n.pc (some (x, [(m, ch)])))
      | some (y, hs) =>
        if x = y then
          match alookup m hs with
          | some _ => .error .duplicateRoute
          | none => .ok (.mk n.handlers n.statics n.pc (some (y, hs ++ [(m, ch)])))
        else .error .routeConflict

/-- Outcome of a route lookup. Modelled from the spec: lookup never
fails, it always yields matched, method-not-allowed (with the collected
allow set) or not-found. -/
inductive MatchResult (χ : Type) where
  | matched (chain : χ) (params : List (String × String))
  | methodNotAllowed (allow : List String)
  | notFound

/-- Allow set reported at a terminal node: the registered methods, plus
HEAD when a GET chain exists and no explicit HEAD chain does. -/
def allowOf {χ : Type} (hs : List (String × χ)) : List String :=
  if (alookup "GET" hs).isSome ∧ (alookup "HEAD" hs).isNone then
    hs.map Prod.fst ++ ["HEAD"]
  else hs.map Prod.fst

/-- Resolve a method against the chains attached to a terminal node.
Modelled from the spec: an exact method entry wins; a HEAD lookup falls
back to the GET chain (auto-HEAD); otherwise the node's other entries
yield method-not-allowed, and a bare node yields not-found. -/
def terminalOf {χ : Type} (hs : List (String × χ)) (m : String)
    (acc : List (String × String)) : MatchResult χ :=
  match alookup m hs with
  | some ch => .matched ch acc
  | none =>
    match (if m = "HEAD" then alookup "GET" hs else none) with
    | some ch => .matched ch acc
    | none =>
      match hs with
      | [] => .notFound
      | _ :: _ => .methodNotAllowed (allowOf hs)

/-- Wildcard fallback at a node: consume the remaining path in full,
binding it (slashes included) under the wildcard's capture name. -/
def wildOf {χ : Type} (m : String) (n : Node χ) (remaining : List String)
    (acc : List (String × String)) : MatchResult χ :=
  match n.wc with
  | some (w, hs) => terminalOf hs m (acc ++ [(w, joinSegs remaining)])
  | none => .notFound

/-- Trie walk. Modelled from the spec: at each node try an exact static
child first; failing that, the param child (which matches any non-empty
segment, binding its value); failing that, the wildcard child consumes
the rest of the path; otherwise the lookup is not-found. -/
def matchLoop {χ : Type} (m : String) : List String → Node χ →
    List (String × String) → MatchResult χ
  | [], n, acc => terminalOf n.handlers m acc
  | seg :: rest, n, acc =>
    match alookup seg n.statics with
    | some child => matchLoop m rest child acc
    | none =>
      match n.pc with
      | some (x, child) =>
        if seg ≠ "" then matchLoop m rest child (acc ++ [(x, seg)])
        else wildOf m n (seg :: rest) acc
      | none => wildOf m n (seg :: rest) acc

/-- Route lookup entry point. -/
def matchR {χ : Type} (m : String) (path : List String) (n : Node χ) : MatchResult χ :=
  matchLoop m path n []

/-- The response surface observed by a client: status code, body, and
the optional Allow header. -/
structure Response where
  status : Nat
  body : String
  allow : Option (List String)
deriving DecidableEq

/-- Execute a request against a route table, returning the context the
chain finished with (acquire, match, run). Modelled from the spec's
Serve pipeline. -/
def serveExec {σ : Type} (r : Node (Chain σ)) (m pathStr : String) (prior : Ctx σ) : Ctx σ :=
  let c := acquire m pathStr prior
  match matchR m (pathSegs pathStr) r with
  | .matched ch ps => runChain ch { c with params := ps }
  | _ => c

/-- Full dispatch. Modelled from the spec: not-found maps to a 404
response with no Allow header; method-not-allowed maps to a 405 response
carrying the Allow set; a matched chain produces its own response, whose
body is discarded by the output layer for HEAD requests. -/
def serve {σ : Type} (r : Node (Chain σ)) (m pathStr : String) (prior : Ctx σ) : Response :=
  match matchR m (pathSegs pathStr) r with
  | .notFound => ⟨404, "", none⟩
  | .methodNotAllowed al => ⟨405, "", some al⟩
  | .matched ch ps =>
    let c' := runChain ch { acquire m pathStr prior with params := ps }
    ⟨c'.statusCode, if m = "HEAD" then "" else c'.body, none⟩

/-- Route-group builder. Modelled from the spec: a scope accumulates a
pattern prefix and an inherited middleware list. -/
structure ScopeB (σ : Type) where
  pfx : List Seg
  mws : Chain σ

def rootScope {σ : Type} : ScopeB σ := ⟨[], []⟩

/-- Child scope: concatenates the parent's prefix and appends the newly
supplied middleware after the inherited ones (outer-to-inner order). -/
def ScopeB.child {σ : Type} (s : ScopeB σ) (p : List Seg) (ms : Chain σ) : ScopeB σ :=
  ⟨s.pfx ++ p, s.mws ++ ms⟩

/-- Add middleware to an existing scope after the inherited ones. -/
def ScopeB.use {σ : Type} (s : ScopeB σ) (ms : Chain σ) : ScopeB σ :=
  ⟨s.pfx, s.mws ++ ms⟩

/-- Register a route under a scope. Modelled from the spec: insert with
the concatenated pattern and the chain scope middleware, then per-route
middleware, then the terminal handler. -/
def ScopeB.register {σ : Type} (s : ScopeB σ) (m : String) (pat : List Seg)
    (routeMws : Chain σ) (h : MWUnit σ) (t : Node (Chain σ)) :
    Except RegErr (Node (Chain σ)) :=
  insert m (s.pfx ++ pat) (s.mws ++ routeMws ++ [h]) t

/-! Route tables used by the concrete claim instances. -/

/-- Table with a static route and a param route at the same trie
position, both registered for GET. -/
def staticParamTable : Except RegErr (Node (Chain Unit)) := do
  let t ← insert "GET" (parsePattern "/users/new") [tag "static-new"] emptyNode
  insert "GET" (parsePattern "/users/:id") [tag "param-id"] t

/-- Table with a param segment followed by a trailing wildcard. -/
def filesTable : Except RegErr (Node (Chain Unit)) :=
  insert "GET" (parsePattern "/users/:id/files/*path") [tag "h"] emptyNode

/-- Table with a single GET-only route. -/
def onlyGetTable : Except RegErr (Node (Chain Unit)) :=
  insert "GET" (parsePattern "/onlyget") [tag "h"] emptyNode

/-- Terminal handler that logs its execution and writes a 200 response. -/
def pageHandler : MWUnit Unit := .basic (fun c => (c.logMsg "h").send 200 "body")

/-- Table with a single GET route whose handler writes a body. -/
def pageTable : Except RegErr (Node (Chain Unit)) :=
  insert "GET" (parsePattern "/page") [pageHandler] emptyNode

/-- Claim C1: at every node lookup tries an exact static child first,
then the param child (on a non-empty segment), then the wildcard child;
hence with /users/new and /users/:id both registered for GET, a lookup
for /users/new resolves the static route's chain, not the param
route's (while /users/7 still resolves the param route). -/
theorem static_beats_param :
    (∀ (χ : Type) (m seg : String) (rest : List String) (n : Node χ)
        (acc : List (String × String)) (child : Node χ),
        alookup seg n.statics = some child →
        matchLoop m (seg :: rest) n acc = matchLoop m rest child acc) ∧
    (∀ (χ : Type) (m seg x : String) (rest : List String) (n : Node χ)
        (acc : List (String × String)) (child : Node χ),
        alookup seg n.statics = none → n.pc = some (x, child) → seg ≠ "" →
        matchLoop m (seg :: rest) n acc = matchLoop m rest child (acc ++ [(x, seg)])) ∧
    (∀ (χ : Type) (m seg : String) (rest : List String) (n : Node χ)
        (acc : List (String × String)),
        alookup seg n.statics = none → n.pc = none →
        matchLoop m (seg :: rest) n acc = wildOf m n (seg :: rest) acc) ∧
    staticParamTable.map (fun t => matchR "GET" (pathSegs "/users/new") t)
      = .ok (.matched [tag "static-new"] []) ∧
    staticParamTable.map (fun t => matchR "GET" (pathSegs "/users/7") t)
      = .ok (.matched [tag "param-id"] [("id", "7")]) := by
  refine ⟨?_, ?_, ?_, rfl, rfl⟩
  · intro χ m seg rest n acc child h
    simp [matchLoop, h]
  · intro χ m seg x rest n acc child hs hp hne
    simp [matchLoop, hs, hp, hne]
  · intro χ m seg rest n acc hs hp
    simp [matchLoop, hs, hp]

/-- Root node of the static/param table. -/
def spRoot : Node (Chain Unit) :=
  match staticParamTable with
  | .ok t => t
  | .error _ => emptyNode

/-- Child of the static/param table's root under the label users. -/
def spUsers : Node (Chain Unit) :=
  (alookup "users" spRoot.statics).getD emptyNode

/-- Param child under /users in the static/param table. -/
def spId : Node (Chain Unit) :=
  match spUsers.pc with
  | some (_, c) => c
  | none => emptyNode

theorem static_beats_param_witness :
    (matchLoop "GET" ["users", "new"] spRoot [] = matchLoop "GET" ["new"] spUsers []) ∧
    (matchLoop "GET" ["7"] spUsers [] = matchLoop "GET" [] spId [("id", "7")]) ∧
    (matchLoop "GET" ["x"] (emptyNode (χ := Chain Unit)) []
      = wildOf "GET" emptyNode ["x"] []) :=
  ⟨static_beats_param.1 (Chain Unit) "GET" "users" ["new"] spRoot [] spUsers rfl,
   static_beats_param.2.1 (Chain Unit) "GET" "7" "id" [] spUsers [] spId rfl rfl
     (by decide),
   static_beats_param.2.2.1 (Chain Unit) "GET" "x" [] emptyNode [] rfl rfl⟩

/-- Claim C2: lookup is total, always yielding exactly one of matched,
method-not-allowed or not-found; a path registered only for GET answers
a POST with method-not-allowed (mapped by serve to 405 with the Allow
set exactly GET, HEAD), while an unregistered path answers not-found
(mapped to 404 with no Allow header). -/
theorem match_total_404_405 :
    (∀ (χ : Type) (m : String) (p : List String) (r : Node χ),
        (∃ ch ps, matchR m p r = .matched ch ps) ∨
        (∃ al, matchR m p r = .methodNotAllowed al) ∨
        matchR m p r = .notFound) ∧
    onlyGetTable.map (fun t => matchR "POST" (pathSegs "/onlyget") t)
      = .ok (.methodNotAllowed ["GET", "HEAD"]) ∧
    onlyGetTable.map (fun t => serve t "POST" "/onlyget" emptyCtx)
      = .ok ⟨405, "", some ["GET", "HEAD"]⟩ ∧
    onlyGetTable.map (fun t => serve t "GET" "/notfound" emptyCtx)
      = .ok ⟨404, "", none⟩ := by
  refine ⟨?_, rfl, rfl, rfl⟩
  intro χ m p r
  cases h : matchR m p r with
  | matched ch ps => exact Or.inl ⟨ch, ps, rfl⟩
  | methodNotAllowed al => exact Or.inr (Or.inl ⟨al, rfl⟩)
  | notFound => exact Or.inr (Or.inr rfl)

/-- Claim C3: with a GET route registered and no explicit HEAD route, a
HEAD lookup resolves to the GET chain at the terminal node; the full GET
chain runs (the handler's log entry appears) and produces the GET status
code, while the output layer discards the body of a HEAD response. -/
theorem auto_head :
    (∀ (χ : Type) (hs : List (String × χ)) (ch : χ) (acc : List (String × String)),
        alookup "HEAD" hs = none → alookup "GET" hs = some ch →
        terminalOf hs "HEAD" acc = .matched ch acc) ∧
    pageTable.map (fun t => matchR "HEAD" (pathSegs "/page") t)
      = .ok (.matched [pageHandler] []) ∧
    pageTable.map (fun t => (serveExec t "HEAD" "/page" emptyCtx).log) = .ok ["h"] ∧
    pageTable.map (fun t => serve t "HEAD" "/page" emptyCtx) = .ok ⟨200, "", none⟩ ∧
    pageTable.map (fun t => serve t "GET" "/page" emptyCtx) = .ok ⟨200, "body", none⟩ := by
  refine ⟨?_, rfl, rfl, rfl, rfl⟩
  intro χ hs ch acc hHead hGet
  simp [terminalOf, hHead, hGet]

theorem auto_head_witness :
    terminalOf [("GET", [pageHandler])] "HEAD" [] = .matched [pageHandler] [] :=
  auto_head.1 (Chain Unit) [("GET", [pageHandler])] [pageHandler] [] rfl rfl

/-- Claim C4: a registered pattern with a param segment and a trailing
wildcard binds the param to exactly one path element and the wildcard to
the entire remaining path including slashes; in particular
/users/42/files/a/b/c.txt resolves with id bound to 42 and path bound
to a/b/c.txt. -/
theorem param_and_wildcard_binding :
    (∀ (v : String) (ws : List String), v ≠ "" → ws ≠ [] →
        filesTable.map (fun t => matchR "GET" ("users" :: v :: "files" :: ws) t)
          = .ok (.matched [tag "h"] [("id", v), ("path", joinSegs ws)])) ∧
    filesTable.map (fun t => matchR "GET" (pathSegs "/users/42/files/a/b/c.txt") t)
      = .ok (.matched [tag "h"] [("id", "42"), ("path", "a/b/c.txt")]) := by
  refine ⟨?_, rfl⟩
  intro v ws hv hws
  obtain ⟨w, ws', rfl⟩ := List.exists_cons_of_ne_nil hws
  simp [filesTable, parsePattern, pathSegs, splitOnChar, parseSeg, insert, emptyNode,
    Node.handlers, Node.statics, Node.pc, Node.wc, Except.map, alookup, assocSet,
    matchR, matchLoop, hv, wildOf, terminalOf]

theorem param_and_wildcard_binding_witness :
    filesTable.map (fun t => matchR "GET" ("users" :: "42" :: "files" :: ["a", "b", "c.txt"]) t)
      = .ok (.matched [tag "h"] [("id", "42"), ("path", joinSegs ["a", "b", "c.txt"])]) :=
  param_and_wildcard_binding.1 "42" ["a", "b", "c.txt"] (by decide) (by decide)

/-- Claim C5: a unit that returns without invoking continuation still
has the remainder of the chain run exactly once (the executor advances
implicitly); a unit that does invoke continuation has the entire
remainder run synchronously inside that call before control returns to
it, enabling wrap-style middleware. -/
theorem implicit_continuation :
    (∀ (σ : Type) (f : Ctx σ → Ctx σ) (rest : Chain σ) (c : Ctx σ),
        c.aborted = false →
        runChain (.basic f :: rest) c = runChain rest (f { c with pos := c.pos + 1 })) ∧
    (∀ (σ : Type) (pre post : Ctx σ → Ctx σ) (rest : Chain σ) (c : Ctx σ),
        c.aborted = false →
        runChain (.around pre post :: rest) c
          = post (runChain rest (pre { c with pos := c.pos + 1 }))) ∧
    (∀ (σ : Type) (ls : List String) (c : Ctx σ), c.aborted = false →
        (runChain (ls.map tag) c).log = c.log ++ ls) ∧
    (∀ (σ : Type) (a : String) (ls : List String) (c : Ctx σ), c.aborted = false →
        (runChain (wrapTag a :: ls.map tag) c).log
          = c.log ++ ["pre:" ++ a] ++ ls ++ ["post:" ++ a]) := by
  refine ⟨?_, ?_, ?_, ?_⟩
  · intro σ f rest c h
    simp [runChain, h]
  · intro σ pre post rest c h
    simp [runChain, h]
  · intro σ ls c h
    exact (runChain_tags ls c h).1
  · intro σ a ls c h
    have hstep : runChain (wrapTag a :: ls.map tag) c
        = (runChain (ls.map tag)
            (({ c with pos := c.pos + 1 } : Ctx σ).logMsg ("pre:" ++ a))).logMsg
            ("post:" ++ a) := by
      simp [runChain, wrapTag, h]
    have hinner := (runChain_tags (σ := σ) ls
      (({ c with pos := c.pos + 1 } : Ctx σ).logMsg ("pre:" ++ a)) (by simp [Ctx.logMsg, h])).1
    rw [hstep]
    simp [Ctx.logMsg] at hinner ⊢
    rw [hinner]
    simp

theorem implicit_continuation_witness :
    ((runChain (["m1", "m2"].map tag) (emptyCtx (σ := Unit))).log
      = (emptyCtx (σ := Unit)).log ++ ["m1", "m2"]) ∧
    ((runChain (wrapTag "L" :: ["m1", "m2"].map tag) (emptyCtx (σ := Unit))).log
      = (emptyCtx (σ := Unit)).log ++ ["pre:" ++ "L"] ++ ["m1", "m2"] ++ ["post:" ++ "L"]) :=
  ⟨implicit_continuation.2.2.1 Unit ["m1", "m2"] emptyCtx rfl,
   implicit_continuation.2.2.2 Unit "L" ["m1", "m2"] emptyCtx rfl⟩

theorem runChain_abort_tags {σ : Type} (us vs : List String) (x : String) (c : Ctx σ)
    (h : c.aborted = false) :
    (runChain (us.map tag ++ abortTag x :: vs.map tag) c).log = c.log ++ us ++ [x] := by
  induction us generalizing c with
  | nil =>
    have hstep : runChain (List.map tag [] ++ abortTag x :: vs.map tag) c
        = runChain (vs.map tag) ((({ c with pos := c.pos + 1 } : Ctx σ).logMsg x).abort) := by
      simp [runChain, abortTag, h]
    rw [hstep, runChain_of_aborted _ _ (by simp [Ctx.abort])]
    simp [Ctx.abort, Ctx.logMsg]
  | cons u us' ih =>
    have hstep : runChain (List.map tag (u :: us') ++ abortTag x :: vs.map tag) c
        = runChain (us'.map tag ++ abortTag x :: vs.map tag)
            (({ c with pos := c.pos + 1 } : Ctx σ).logMsg u) := by
      simp [runChain, tag, h]
    rw [hstep, ih _ (by simp [Ctx.logMsg, h])]
    simp [Ctx.logMsg]

/-- Claim C6: once a unit aborts the context no subsequent unit runs,
neither through the executor's implicit advance (whatever the aborting
unit's position) nor through an explicit continuation call already in
flight; aborting an already-aborted context has no further effect. -/
theorem abort_short_circuits :
    (∀ (σ : Type) (us vs : List String) (x : String) (c : Ctx σ), c.aborted = false →
        (runChain (us.map tag ++ abortTag x :: vs.map tag) c).log = c.log ++ us ++ [x]) ∧
    (∀ (σ : Type) (a x : String) (vs : List String) (c : Ctx σ), c.aborted = false →
        (runChain (wrapTag a :: abortTag x :: vs.map tag) c).log
          = c.log ++ ["pre:" ++ a, x, "post:" ++ a]) ∧
    (∀ (σ : Type) (c : Ctx σ), c.abort.abort = c.abort) := by
  refine ⟨?_, ?_, ?_⟩
  · intro σ us vs x c h
    exact runChain_abort_tags us vs x c h
  · intro σ a x vs c h
    have hstep : runChain (wrapTag a :: abortTag x :: vs.map tag) c
        = (runChain (abortTag x :: vs.map tag)
            (({ c with pos := c.pos + 1 } : Ctx σ).logMsg ("pre:" ++ a))).logMsg
            ("post:" ++ a) := by
      simp [runChain, wrapTag, h]
    have hinner := runChain_abort_tags (σ := σ) [] vs x
      (({ c with pos := c.pos + 1 } : Ctx σ).logMsg ("pre:" ++ a)) (by simp [Ctx.logMsg, h])
    rw [hstep]
    simp [Ctx.logMsg] at hinner ⊢
    rw [hinner]
    simp
  · intro σ c
    simp [Ctx.abort]

theorem abort_short_circuits_witness :
    ((runChain (["m1"].map tag ++ abortTag "A" :: ["m2", "h"].map tag)
        (emptyCtx (σ := Unit))).log = (emptyCtx (σ := Unit)).log ++ ["m1"] ++ ["A"]) ∧
    ((runChain (wrapTag "L" :: abortTag "A" :: ["h"].map tag)
        (emptyCtx (σ := Unit))).log
      = (emptyCtx (σ := Unit)).log ++ ["pre:" ++ "L", "A", "post:" ++ "L"]) :=
  ⟨abort_short_circuits.1 Unit ["m1"] ["m2", "h"] "A" emptyCtx rfl,
   abort_short_circuits.2.1 Unit "L" "A" ["h"] emptyCtx rfl⟩

/-- Route table registered through two nested scopes carrying middleware
M1 (outer) and M2 (inner), with per-route middleware M3 and a terminal
handler. -/
def scopedTable : Except RegErr (Node (Chain Unit)) :=
  (((rootScope.child (parsePattern "/api") [tag "M1"]).child
      (parsePattern "/v1") [tag "M2"]).register
    "GET" (parsePattern "/item") [tag "M3"] (tag "handler")) emptyNode

/-- Claim C7: a route registered under nested scopes is inserted with
the concatenation of the ancestor prefixes plus the route pattern, and
with the chain ancestor middleware, descendant middleware, per-route
middleware, then the terminal handler; the observed execution order for
M1 (outer scope), M2 (inner scope), M3 (per-route) is M1, M2, M3,
handler. -/
theorem scope_composition :
    (∀ (σ : Type) (s : ScopeB σ) (p : List Seg) (ms : Chain σ),
        (s.child p ms).pfx = s.pfx ++ p ∧ (s.child p ms).mws = s.mws ++ ms) ∧
    (∀ (σ : Type) (s : ScopeB σ) (m : String) (pat : List Seg) (rms : Chain σ)
        (hd : MWUnit σ) (t : Node (Chain σ)),
        s.register m pat rms hd t = insert m (s.pfx ++ pat) (s.mws ++ rms ++ [hd]) t) ∧
    scopedTable.map (fun t => matchR "GET" (pathSegs "/api/v1/item") t)
      = .ok (.matched [tag "M1", tag "M2", tag "M3", tag "handler"] []) ∧
    (runChain [tag "M1", tag "M2", tag "M3", tag "handler"] (emptyCtx (σ := Unit))).log
      = ["M1", "M2", "M3", "handler"] :=
  ⟨fun _ _ _ _ => ⟨rfl, rfl⟩, fun _ _ _ _ _ _ _ => rfl, rfl, rfl⟩

/-- Claim C8: acquire resets the pooled context to default-zero state
(params cleared, store cleared, abort flag cleared, chain position
reset, error cleared); in particular the acquired context is
independent of whatever the prior request left in the instance, so the
second of two sequential requests sharing a pooled context observes
none of the first request's parameter bindings or store entries. -/
theorem acquire_resets :
    (∀ (σ : Type) (m p : String) (c c' : Ctx σ), acquire m p c = acquire m p c') ∧
    (∀ (σ : Type) (m p : String) (c : Ctx σ),
        (acquire m p c).params = [] ∧ (acquire m p c).store = [] ∧
        (acquire m p c).aborted = false ∧ (acquire m p c).pos = 0 ∧
        (acquire m p c).err = none ∧
        ∀ k, (acquire m p c).param k = "" ∧ (acquire m p c).get k = none) :=
  ⟨fun _ _ _ _ _ => rfl,
   fun _ _ _ _ => ⟨rfl, rfl, rfl, rfl, rfl, fun _ => ⟨rfl, rfl⟩⟩⟩

theorem alookup_cons_self {β : Type} (k : String) (v : β) (rest : List (String × β)) :
    alookup k ((k, v) :: rest) = some v := by
  simp [alookup]

theorem alookup_append_of_none {β : Type} (k : String) (xs ys : List (String × β))
    (h : alookup k xs = none) : alookup k (xs ++ ys) = alookup k ys := by
  induction xs with
  | nil => rfl
  | cons hd tl ih =>
    obtain ⟨k', v'⟩ := hd
    by_cases hk : k = k'
    · simp [alookup, hk] at h
    · simp [alookup, hk] at h ⊢
      exact ih h

theorem except_map_ok {ε α β : Type} (f : α → β) (e : Except ε α) (b : β)
    (h : e.map f = .ok b) : ∃ a, e = .ok a ∧ b = f a := by
  cases e with
  | error er => simp [Except.map] at h
  | ok a =>
    refine ⟨a, rfl, ?_⟩
    simpa [Except.map] using h.symm

theorem handlers_mk {χ : Type} (h : List (String × χ)) (s : List (String × Node χ))
    (p : Option (String × Node χ)) (w : Option (String × List (String × χ))) :
    (Node.mk h s p w).handlers = h := rfl

theorem statics_mk {χ : Type} (h : List (String × χ)) (s : List (String × Node χ))
    (p : Option (String × Node χ)) (w : Option (String × List (String × χ))) :
    (Node.mk h s p w).statics = s := rfl

theorem pc_mk {χ : Type} (h : List (String × χ)) (s : List (String × Node χ))
    (p : Option (String × Node χ)) (w : Option (String × List (String × χ))) :
    (Node.mk h s p w).pc = p := rfl

theorem wc_mk {χ : Type} (h : List (String × χ)) (s : List (String × Node χ))
    (p : Option (String × Node χ)) (w : Option (String × List (String × χ))) :
    (Node.mk h s p w).wc = w := rfl

/-- Inserting an identical (method, pattern) a second time always fails
with duplicateRoute; the table that holds the first chain is not
replaced (the error carries no table). -/
theorem insert_dup {χ : Type} (m : String) (segs : List Seg) (ch ch' : χ)
    (t t' : Node χ) (h : insert m segs ch t = .ok t') :
    insert m segs ch' t' = .error .duplicateRoute := by
  induction segs generalizing t t' with
  | nil =>
    simp only [insert] at h ⊢
    cases hl : alookup m t.handlers with
    | some v => simp [hl] at h
    | none =>
      simp only [hl, Except.ok.injEq] at h
      subst h
      simp [handlers_mk, alookup_append_of_none m _ _ hl, alookup_cons_self]
  | cons s rest ih =>
    cases s with
    | static l =>
      simp only [insert] at h ⊢
      obtain ⟨c', hc', rfl⟩ := except_map_ok _ _ _ h
      simp [statics_mk, alookup_assocSet_self, ih _ _ hc', Except.map]
    | param x =>
      simp only [insert] at h ⊢
      cases hpc : t.pc with
      | none =>
        simp only [hpc] at h
        obtain ⟨c', hc', rfl⟩ := except_map_ok _ _ _ h
        simp [pc_mk, ih _ _ hc', Except.map]
      | some yp =>
        obtain ⟨y, pchild⟩ := yp
        simp only [hpc] at h
        by_cases hxy : x = y
        · rw [if_pos hxy] at h
          obtain ⟨c', hc', rfl⟩ := except_map_ok _ _ _ h
          simp [pc_mk, hxy, ih _ _ hc', Except.map]
        · rw [if_neg hxy] at h
          simp at h
    | wildcard x =>
      cases rest with
      | cons a as => simp [insert] at h
      | nil =>
        simp only [insert] at h ⊢
        cases hwc : t.wc with
        | none =>
          simp only [hwc, Except.ok.injEq] at h
          subst h
          simp [wc_mk, alookup_cons_self]
        | some yhs =>
          obtain ⟨y, hs⟩ := yhs
          simp only [hwc] at h
          by_cases hxy : x = y
          · rw [if_pos hxy] at h
            cases hl : alookup m hs with
            | some v => simp [hl] at h
            | none =>
              simp only [hl, Except.ok.injEq] at h
              subst h
              simp [wc_mk, hxy, alookup_append_of_none m _ _ hl, alookup_cons_self]
          · rw [if_neg hxy] at h
            simp at h

/-- Inserting a second, differently-named param segment at the same trie
position fails with routeConflict, for any shared pattern prefix leading
to that position (static and param segments alike). -/
theorem insert_param_conflict {χ : Type} (pre : List Seg) (a b : String)
    (suf1 suf2 : List Seg) (m1 m2 : String) (ch1 ch2 : χ) (t t' : Node χ)
    (hab : a ≠ b)
    (h : insert m1 (pre ++ Seg.param a :: suf1) ch1 t = .ok t') :
    insert m2 (pre ++ Seg.param b :: suf2) ch2 t' = .error .routeConflict := by
  induction pre generalizing t t' with
  | nil =>
    simp only [List.nil_append] at h ⊢
    simp only [insert] at h ⊢
    cases hpc : t.pc with
    | none =>
      simp only [hpc] at h
      obtain ⟨c', hc', rfl⟩ := except_map_ok _ _ _ h
      have hba : ¬b = a := fun hba => hab hba.symm
      simp [pc_mk, hba]
    | some yp =>
      obtain ⟨y, pchild⟩ := yp
      simp only [hpc] at h
      by_cases hay : a = y
      · rw [if_pos hay] at h
        obtain ⟨c', hc', rfl⟩ := except_map_ok _ _ _ h
        have hby : ¬b = y := fun hby => hab (hay.trans hby.symm)
        simp [pc_mk, hby]
      · rw [if_neg hay] at h
        simp at h
  | cons s pre' ih =>
    cases s with
    | static l =>
      simp only [List.cons_append] at h ⊢
      simp only [insert] at h ⊢
      obtain ⟨c', hc', rfl⟩ := except_map_ok _ _ _ h
      simp [statics_mk, alookup_assocSet_self, ih _ _ hc', Except.map]
    | param x =>
      simp only [List.cons_append] at h ⊢
      simp only [insert] at h ⊢
      cases hpc : t.pc with
      | none =>
        simp only [hpc] at h
        obtain ⟨c', hc', rfl⟩ := except_map_ok _ _ _ h
        simp [pc_mk, ih _ _ hc', Except.map]
      | some yp =>
        obtain ⟨y, pchild⟩ := yp
        simp only [hpc] at h
        by_cases hxy : x = y
        · rw [if_pos hxy] at h
          obtain ⟨c', hc', rfl⟩ := except_map_ok _ _ _ h
          simp [pc_mk, hxy, ih _ _ hc', Except.map]
        · rw [if_neg hxy] at h
          simp at h
    | wildcard x =>
      simp only [List.cons_append] at h
      rcases hrest : pre' ++ Seg.param a :: suf1 with _ | ⟨q, qs⟩
      · simp at hrest
      · rw [hrest] at h
        simp [insert] at h

/-- Inserting a second, differently-named wildcard segment at the same
trie position fails with routeConflict, for any shared pattern prefix
leading to that position (static and param segments alike). -/
theorem insert_wild_conflict {χ : Type} (pre : List Seg) (a b : String)
    (m1 m2 : String) (ch1 ch2 : χ) (t t' : Node χ) (hab : a ≠ b)
    (h : insert m1 (pre ++ [Seg.wildcard a]) ch1 t = .ok t') :
    insert m2 (pre ++ [Seg.wildcard b]) ch2 t' = .error .routeConflict := by
  induction pre generalizing t t' with
  | nil =>
    simp only [List.nil_append] at h ⊢
    simp only [insert] at h ⊢
    cases hwc : t.wc with
    | none =>
      simp only [hwc, Except.ok.injEq] at h
      subst h
      have hba : ¬b = a := fun hba => hab hba.symm
      simp [wc_mk, hba]
    | some yhs =>
      obtain ⟨y, hs⟩ := yhs
      simp only [hwc] at h
      by_cases hay : a = y
      · rw [if_pos hay] at h
        cases hl : alookup m1 hs with
        | some v => simp [hl] at h
        | none =>
          simp only [hl, Except.ok.injEq] at h
          subst h
          have hby : ¬b = y := fun hby => hab (hay.trans hby.symm)
          simp [wc_mk, hby]
      · rw [if_neg hay] at h
        simp at h
  | cons s pre' ih =>
    cases s with
    | static l =>
      simp only [List.cons_append] at h ⊢
      simp only [insert] at h ⊢
      obtain ⟨c', hc', rfl⟩ := except_map_ok _ _ _ h
      simp [statics_mk, alookup_assocSet_self, ih _ _ hc', Except.map]
    | param x =>
      simp only [List.cons_append] at h ⊢
      simp only [insert] at h ⊢
      cases hpc : t.pc with
      | none =>
        simp only [hpc] at h
        obtain ⟨c', hc', rfl⟩ := except_map_ok _ _ _ h
        simp [pc_mk, ih _ _ hc', Except.map]
      | some yp =>
        obtain ⟨y, pchild⟩ := yp
        simp only [hpc] at h
        by_cases hxy : x = y
        · rw [if_pos hxy] at h
          obtain ⟨c', hc', rfl⟩ := except_map_ok _ _ _ h
          simp [pc_mk, hxy, ih _ _ hc', Except.map]
        · rw [if_neg hxy] at h
          simp at h
    | wildcard x =>
      simp only [List.cons_append] at h
      rcases hrest : pre' ++ [Seg.wildcard a] with _ | ⟨q, qs⟩
      · simp at hrest
      · rw [hrest] at h
        simp [insert] at h

/-- Claim C9: registering an identical (method, pattern) a second time
fails with duplicateRoute rather than silently overwriting, and
registering a second, differently-named param or wildcard segment at
the same trie position, reached through any shared pattern prefix,
fails with routeConflict; both are synchronous registration-time errors
of the insert operation. -/
theorem registration_errors :
    (∀ (χ : Type) (m : String) (segs : List Seg) (ch ch' : χ) (t t' : Node χ),
        insert m segs ch t = .ok t' → insert m segs ch' t' = .error .duplicateRoute) ∧
    (∀ (χ : Type) (pre : List Seg) (a b : String) (suf1 suf2 : List Seg)
        (m1 m2 : String) (ch1 ch2 : χ) (t t' : Node χ), a ≠ b →
        insert m1 (pre ++ Seg.param a :: suf1) ch1 t = .ok t' →
        insert m2 (pre ++ Seg.param b :: suf2) ch2 t'
          = .error .routeConflict) ∧
    (∀ (χ : Type) (pre : List Seg) (a b : String) (m1 m2 : String) (ch1 ch2 : χ)
        (t t' : Node χ), a ≠ b →
        insert m1 (pre ++ [Seg.wildcard a]) ch1 t = .ok t' →
        insert m2 (pre ++ [Seg.wildcard b]) ch2 t'
          = .error .routeConflict) :=
  ⟨fun _ m segs ch ch' t t' h => insert_dup m segs ch ch' t t' h,
   fun _ pre a b suf1 suf2 m1 m2 ch1 ch2 t t' hab h =>
     insert_param_conflict pre a b suf1 suf2 m1 m2 ch1 ch2 t t' hab h,
   fun _ pre a b m1 m2 ch1 ch2 t t' hab h =>
     insert_wild_conflict pre a b m1 m2 ch1 ch2 t t' hab h⟩

/-- Table that registered GET on the static segment x. -/
def dupNode : Node Unit :=
  match insert "GET" [Seg.static "x"] () emptyNode with
  | .ok t => t
  | .error _ => emptyNode

/-- Table that registered a param segment named a at the root. -/
def paramNode : Node Unit :=
  match insert "GET" [Seg.param "a"] () emptyNode with
  | .ok t => t
  | .error _ => emptyNode

/-- Table that registered a param named a below a param named p. -/
def paramNode2 : Node Unit :=
  match insert "GET" [Seg.param "p", Seg.param "a"] () emptyNode with
  | .ok t => t
  | .error _ => emptyNode

/-- Table that registered a wildcard segment named a at the root. -/
def wildNode : Node Unit :=
  match insert "GET" [Seg.wildcard "a"] () emptyNode with
  | .ok t => t
  | .error _ => emptyNode

theorem registration_errors_witness :
    insert "GET" [Seg.static "x"] () dupNode = .error .duplicateRoute ∧
    insert "GET" [Seg.param "b"] () paramNode = .error .routeConflict ∧
    insert "GET" [Seg.param "p", Seg.param "b"] () paramNode2 = .error .routeConflict ∧
    insert "GET" [Seg.wildcard "b"] () wildNode = .error .routeConflict :=
  ⟨registration_errors.1 Unit "GET" [Seg.static "x"] () () emptyNode dupNode rfl,
   registration_errors.2.1 Unit [] "a" "b" [] [] "GET" "GET" () () emptyNode paramNode
     (by decide) rfl,
   registration_errors.2.1 Unit [Seg.param "p"] "a" "b" [] [] "GET" "GET" () ()
     emptyNode paramNode2 (by decide) rfl,
   registration_errors.2.2 Unit [] "a" "b" "GET" "GET" () () emptyNode wildNode
     (by decide) rfl⟩

/-! JWT signing and verification, translated from the middleware source.
Bytes are naturals below 256; HMAC-SHA256 and the JSON codec for claims
are stdlib collaborators and enter as function parameters. -/

/-- Character of the base64url alphabet at a given index. -/
def b64Char (i : Nat) : Char :=
  if i < 26 then Char.ofNat (65 + i)
  else if i < 52 then Char.ofNat (71 + i)
  else if i < 62 then Char.ofNat (i - 4)
  else if i = 62 then '-'
  else '_'

/-- Index of a character in the base64url alphabet, if any. -/
def b64Val (ch : Char) : Option Nat :=
  let c := ch.toNat
  if 65 ≤ c ∧ c ≤ 90 then some (c - 65)
  else if 97 ≤ c ∧ c ≤ 122 then some (c - 71)
  else if 48 ≤ c ∧ c ≤ 57 then some (c + 4)
  else if c = 45 then some 62
  else if c = 95 then some 63
  else none

/-- Unpadded base64url encoding of a byte list (Go
base64.RawURLEncoding.EncodeToString). -/
def b64Encode : List Nat → List Char
  | [] => []
  | [a] => [b64Char (a / 4), b64Char (a % 4 * 16)]
  | [a, b] => [b64Char (a / 4), b64Char (a % 4 * 16 + b / 16), b64Char (b % 16 * 4)]
  | a :: b :: c :: rest =>
    b64Char (a / 4) :: b64Char (a % 4 * 16 + b / 16) ::
      b64Char (b % 16 * 4 + c / 64) :: b64Char (c % 64) :: b64Encode rest

/-- Unpadded base64url decoding (Go base64.RawURLEncoding.DecodeString):
fails on characters outside the alphabet or on a remainder of one
character. -/
def b64Decode : List Char → Option (List Nat)
  | [] => some []
  | [_] => none
  | [c1, c2] => do
    let v1 ← b64Val c1
    let v2 ← b64Val c2
    pure [v1 * 4 + v2 / 16]
  | [c1, c2, c3] => do
    let v1 ← b64Val c1
    let v2 ← b64Val c2
    let v3 ← b64Val c3
    pure [v1 * 4 + v2 / 16, v2 % 16 * 16 + v3 / 4]
  | c1 :: c2 :: c3 :: c4 :: rest => do
    let v1 ← b64Val c1
    let v2 ← b64Val c2
    let v3 ← b64Val c3
    let v4 ← b64Val c4
    let tl ← b64Decode rest
    pure ((v1 * 4 + v2 / 16) :: (v2 % 16 * 16 + v3 / 4) :: (v3 % 4 * 64 + v4) :: tl)

theorem b64Val_b64Char : ∀ i, i < 64 → b64Val (b64Char i) = some i := by decide

theorem dot_ne_b64Char : ∀ i, i < 64 → ('.' : Char) ≠ b64Char i := by decide

theorem chunk3_induction {α : Type} (P : List α → Prop) (h0 : P [])
    (h1 : ∀ a, P [a]) (h2 : ∀ a b, P [a, b])
    (h3 : ∀ a b c rest, P rest → P (a :: b :: c :: rest)) : ∀ l, P l
  | [] => h0
  | [a] => h1 a
  | [a, b] => h2 a b
  | a :: b :: c :: rest => h3 a b c rest (chunk3_induction P h0 h1 h2 h3 rest)

/-- Decoding is a left inverse of encoding on byte lists. -/
theorem b64_roundtrip (bs : List Nat) (hb : ∀ b ∈ bs, b < 256) :
    b64Decode (b64Encode bs) = some bs := by
  refine chunk3_induction
    (fun l => (∀ b ∈ l, b < 256) → b64Decode (b64Encode l) = some l)
    ?_ ?_ ?_ ?_ bs hb
  · intro _
    rfl
  · intro a h
    have ha : a < 256 := h a (by simp)
    have e1 : a / 4 * 4 + a % 4 * 16 / 16 = a := by omega
    simp [b64Encode, b64Decode, b64Val_b64Char _ (show a / 4 < 64 by omega),
      b64Val_b64Char _ (show a % 4 * 16 < 64 by omega), e1]
    omega
  · intro a b h
    have ha : a < 256 := h a (by simp)
    have hb' : b < 256 := h b (by simp)
    have e1 : a / 4 * 4 + (a % 4 * 16 + b / 16) / 16 = a := by omega
    have e2 : (a % 4 * 16 + b / 16) % 16 * 16 + b % 16 * 4 / 4 = b := by omega
    simp [b64Encode, b64Decode, b64Val_b64Char _ (show a / 4 < 64 by omega),
      b64Val_b64Char _ (show a % 4 * 16 + b / 16 < 64 by omega),
      b64Val_b64Char _ (show b % 16 * 4 < 64 by omega), e1, e2]
    omega
  · intro a b c rest ih h
    have ha : a < 256 := h a (by simp)
    have hb' : b < 256 := h b (by simp)
    have hc : c < 256 := h c (by simp)
    have hrest := ih (fun x hx => h x (by simp [hx]))
    have e1 : a / 4 * 4 + (a % 4 * 16 + b / 16) / 16 = a := by omega
    have e2 : (a % 4 * 16 + b / 16) % 16 * 16 + (b % 16 * 4 + c / 64) / 4 = b := by omega
    have e3 : (b % 16 * 4 + c / 64) % 4 * 64 + c % 64 = c := by omega
    simp [b64Encode, b64Decode, b64Val_b64Char _ (show a / 4 < 64 by omega),
      b64Val_b64Char _ (show a % 4 * 16 + b / 16 < 64 by omega),
      b64Val_b64Char _ (show b % 16 * 4 + c / 64 < 64 by omega),
      b64Val_b64Char _ (show c % 64 < 64 by omega), hrest, e1, e2, e3]

/-- Encoded output never contains a dot, so joining segments with dots
splits back unambiguously. -/
theorem b64Encode_no_dot (bs : List Nat) (hb : ∀ b ∈ bs, b < 256) :
    ('.' : Char) ∉ b64Encode bs := by
  refine chunk3_induction
    (fun l => (∀ b ∈ l, b < 256) → ('.' : Char) ∉ b64Encode l)
    ?_ ?_ ?_ ?_ bs hb
  · intro _
    simp [b64Encode]
  · intro a h
    have ha : a < 256 := h a (by simp)
    simp [b64Encode, dot_ne_b64Char _ (show a / 4 < 64 by omega),
      dot_ne_b64Char _ (show a % 4 * 16 < 64 by omega)]
  · intro a b h
    have ha : a < 256 := h a (by simp)
    have hb' : b < 256 := h b (by simp)
    simp [b64Encode, dot_ne_b64Char _ (show a / 4 < 64 by omega),
      dot_ne_b64Char _ (show a % 4 * 16 + b / 16 < 64 by omega),
      dot_ne_b64Char _ (show b % 16 * 4 < 64 by omega)]
  · intro a b c rest ih h
    have ha : a < 256 := h a (by simp)
    have hb' : b < 256 := h b (by simp)
    have hc : c < 256 := h c (by simp)
    have hrest := ih (fun x hx => h x (by simp [hx]))
    simp [b64Encode, dot_ne_b64Char _ (show a / 4 < 64 by omega),
      dot_ne_b64Char _ (show a % 4 * 16 + b / 16 < 64 by omega),
      dot_ne_b64Char _ (show b % 16 * 4 + c / 64 < 64 by omega),
      dot_ne_b64Char _ (show c % 64 < 64 by omega), hrest]

theorem isPrefixOf_append_self : ∀ (l t : List Char), l.isPrefixOf (l ++ t) = true := by
  intro l t
  induction l with
  | nil => simp [List.isPrefixOf]
  | cons a as ih => simp [List.isPrefixOf, ih]

/-- The JSON form of the fixed JWT header produced by the signer. -/
def headerJSON : String := "\x7b\"alg\":\"HS256\",\"typ\":\"JWT\"\x7d"

/-- Header bytes as marshaled by the signer. -/
def headerBytes : List Nat := headerJSON.data.map Char.toNat

/-- The scheme marker checked on the Authorization header. -/
def bearerChars : List Char := "Bearer ".data

/-- The part of the token that is signed: encoded header, a dot, encoded
payload. -/
def signingStr {κ : Type} (marshalF : κ → List Nat) (claims : κ) : List Char :=
  b64Encode headerBytes ++ '.' :: b64Encode (marshalF claims)

/-- SignHS256: marshal the fixed header and the claims, base64url-encode
both, join with a dot, MAC the joined string with the secret, and append
the encoded signature after a second dot. -/
def signHS256 {κ : Type} (hmacF : List Nat → List Nat → List Nat)
    (marshalF : κ → List Nat) (claims : κ) (secret : List Nat) : List Char :=
  signingStr marshalF claims ++
    '.' :: b64Encode (hmacF secret ((signingStr marshalF claims).map Char.toNat))

/-- Outcome of the JWT middleware on one request: respond 401 and abort,
continue without storing (SkipIfMissing with no bearer token), or store
the decoded claims under the context key and continue the chain. -/
inductive JWTResult (κ : Type) where
  | unauthorized (msg : String)
  | skipped
  | proceed (key : String) (claims : κ)

/-- The middleware defaults an empty ContextKey to user. -/
def effectiveKey (k : String) : String := if k = "" then "user" else k

/-- The JWT middleware's checks on the Authorization header value, in
source order: bearer marker, three dot-separated parts, header decode,
algorithm HS256, recomputed MAC against the decoded signature, payload
decode and unmarshal, then the optional validation callback. -/
def jwtCheck {κ : Type} (hmacF : List Nat → List Nat → List Nat)
    (unmarshalF : List Nat → Option κ) (headerAlgF : List Nat → Option String)
    (valf : Option (κ → Option String)) (secret : List Nat) (ckey : String)
    (skipIfMissing : Bool) (auth : List Char) : JWTResult κ :=
  if bearerChars.isPrefixOf auth then
    let token := auth.drop bearerChars.length
    match splitOnChar '.' token with
    | [p0, p1, p2] =>
      match b64Decode p0 with
      | none => .unauthorized "invalid token"
      | some hb =>
        match headerAlgF hb with
        | none => .unauthorized "invalid token"
        | some alg =>
          if alg = "HS256" then
            let want := hmacF secret ((p0 ++ '.' :: p1).map Char.toNat)
            match b64Decode p2 with
            | none => .unauthorized "invalid signature"
            | some got =>
              if got = want then
                match b64Decode p1 with
                | none => .unauthorized "invalid token"
                | some pb =>
                  match unmarshalF pb with
                  | none => .unauthorized "invalid token"
                  | some claims =>
                    match valf with
                    | none => .proceed (effectiveKey ckey) claims
                    | some f =>
                      match f claims with
                      | some e => .unauthorized e
                      | none => .proceed (effectiveKey ckey) claims
              else .unauthorized "invalid signature"
          else .unauthorized "unsupported algorithm"
    | _ => .unauthorized "invalid token"
  else if skipIfMissing then .skipped
  else .unauthorized "missing token"

/-- Claim C10: for every claims value and secret, the token produced by
SignHS256 passes every check of the JWT middleware configured with the
same secret: the decoded header algorithm is HS256 and the recomputed
MAC over header.payload matches, so when the token is sent as a bearer
Authorization value and the optional validation callback accepts, the
middleware stores the JSON round-trip of the claims under the context
key and continues the chain rather than responding 401 and aborting.
HMAC-SHA256 and the claims JSON codec are quantified parameters; the
hypotheses record that MAC output and marshaled claims are bytes, that
unmarshal round-trips marshal, and that the fixed header JSON decodes
to algorithm HS256. -/
theorem sign_verify_roundtrip {κ : Type}
    (hmacF : List Nat → List Nat → List Nat)
    (marshalF : κ → List Nat) (unmarshalF : List Nat → Option κ)
    (headerAlgF : List Nat → Option String)
    (valf : Option (κ → Option String))
    (secret : List Nat) (ckey : String) (skipIfMissing : Bool)
    (claims rt : κ)
    (hHdr : headerAlgF headerBytes = some "HS256")
    (hPay : ∀ b ∈ marshalF claims, b < 256)
    (hRt : unmarshalF (marshalF claims) = some rt)
    (hSig : ∀ b ∈ hmacF secret ((signingStr marshalF claims).map Char.toNat), b < 256)
    (hVal : ∀ f ∈ valf, f rt = none) :
    jwtCheck hmacF unmarshalF headerAlgF valf secret ckey skipIfMissing
        (bearerChars ++ signHS256 hmacF marshalF claims secret)
      = .proceed (effectiveKey ckey) rt := by
  have hHdrLt : ∀ b ∈ headerBytes, b < 256 := by decide
  have hnd0 : ('.' : Char) ∉ b64Encode headerBytes := b64Encode_no_dot _ hHdrLt
  have hnd1 : ('.' : Char) ∉ b64Encode (marshalF claims) := b64Encode_no_dot _ hPay
  have hnd2 : ('.' : Char)
      ∉ b64Encode (hmacF secret ((signingStr marshalF claims).map Char.toNat)) :=
    b64Encode_no_dot _ hSig
  have hshape : signHS256 hmacF marshalF claims secret
      = b64Encode headerBytes ++ '.' ::
          (b64Encode (marshalF claims) ++ '.' ::
            b64Encode (hmacF secret ((signingStr marshalF claims).map Char.toNat))) := by
    simp [signHS256, signingStr]
  have hsplit : splitOnChar '.' (signHS256 hmacF marshalF claims secret)
      = [b64Encode headerBytes, b64Encode (marshalF claims),
         b64Encode (hmacF secret ((signingStr marshalF claims).map Char.toNat))] := by
    rw [hshape, splitOnChar_append_sep _ _ _ hnd0, splitOnChar_append_sep _ _ _ hnd1,
      splitOnChar_no_sep _ _ hnd2]
  have hpre : bearerChars.isPrefixOf
      (bearerChars ++ signHS256 hmacF marshalF claims secret) = true :=
    isPrefixOf_append_self bearerChars _
  have hdrop : (bearerChars ++ signHS256 hmacF marshalF claims secret).drop
      bearerChars.length = signHS256 hmacF marshalF claims secret :=
    List.drop_left _ _
  have hmapeq : (signingStr marshalF claims).map Char.toNat
      = (b64Encode headerBytes).map Char.toNat ++
          46 :: (b64Encode (marshalF claims)).map Char.toNat := by
    simp [signingStr]
  have hsig_rt := b64_roundtrip _ hSig
  rw [hmapeq] at hsig_rt
  cases hv : valf with
  | none =>
    simp [jwtCheck, hpre, hdrop, hsplit, b64_roundtrip _ hHdrLt, b64_roundtrip _ hPay,
      hsig_rt, hHdr, hRt, signingStr]
  | some f =>
    have hfrt : f rt = none := hVal f (by rw [hv]; rfl)
    simp [jwtCheck, hpre, hdrop, hsplit, b64_roundtrip _ hHdrLt, b64_roundtrip _ hPay,
      hsig_rt, hHdr, hRt, signingStr, hfrt]

/-- Concrete stand-in for HMAC-SHA256 in the witness. -/
def wHmac : List Nat → List Nat → List Nat := fun _ _ => [7, 9]

/-- Concrete stand-in for the claims JSON marshaler in the witness. -/
def wMarshal : Nat → List Nat := fun n => [n % 256]

/-- Concrete stand-in for the claims JSON unmarshaler in the witness. -/
def wUnmarshal : List Nat → Option Nat :=
  fun bs => match bs with
  | [n] => some n
  | _ => none

/-- Concrete stand-in for decoding the header JSON's algorithm field in
the witness. -/
def wHeaderAlg : List Nat → Option String :=
  fun bs => if bs = headerBytes then some "HS256" else none

theorem sign_verify_roundtrip_witness :
    jwtCheck wHmac wUnmarshal wHeaderAlg none [5] "" false
        (bearerChars ++ signHS256 wHmac wMarshal 42 [5])
      = .proceed (effectiveKey "") 42 :=
  sign_verify_roundtrip wHmac wMarshal wUnmarshal wHeaderAlg none [5] "" false 42 42
    (by decide) (by decide) (by decide) (by decide)
    (fun f h => Option.noConfusion h)

end Zentrox
